import Mathlib

/-!
Verification of the yass CNF satisfiability searcher (src/yass.py).

The embedding is shallow: the mutable `Var.value` fields of the Python
formula become an explicit assignment state (`Assign`, one `Option Bool`
per variable, position i holding variable i+1's value, the parser's
layout), and the two search entry points `backtrack` and `dpll` thread
that state and return it together with the success flag (`backtrack`
returns `f.vars` on success and `None` on failure; here the pair holds
the final variable state and a `Bool`).  `backtrack`'s recursion is
bounded by the number of unassigned variables; it is defined through an
explicit bound `backtrackFuel`, with `backtrack` running it at bound
`countNone asn + 1`, and the fuel-irrelevance theorem shows any bound
above the number of unassigned variables computes the same result.
-/

namespace Yass

/-- A literal of src/yass.py (`class Lit`): a 1-based variable index
(`Var.name`) and a polarity. -/
structure Lit where
  var : Nat
  sign : Bool
deriving DecidableEq

/-- A clause of src/yass.py (`class Clause`): an ordered list of literals. -/
structure Clause where
  lits : List Lit
deriving DecidableEq

/-- The variable state of a formula: entry i is variable (i+1)'s `value`
(`None`/`True`/`False` in Python). -/
abbrev Assign := List (Option Bool)

/-- The current value of 1-based variable v, as Python reads
`f.vars[name - 1].value`. -/
def getVar (asn : Assign) (v : Nat) : Option Bool :=
  asn.getD (v - 1) none

/-- `Lit.sat` of src/yass.py: `self.var.value == self.sign` (comparing the
tri-state value against the Boolean sign, so an unassigned variable
compares unequal). -/
def Lit.sat (asn : Assign) (l : Lit) : Bool :=
  getVar asn l.var == some l.sign

/-- `Lit.unsat` of src/yass.py: false when the variable is unassigned or the
literal is satisfied, true otherwise. -/
def Lit.unsat (asn : Assign) (l : Lit) : Bool :=
  if getVar asn l.var == none || Lit.sat asn l then false else true

/-- `Clause.sat` of src/yass.py: some literal evaluates positively. -/
def Clause.sat (asn : Assign) (c : Clause) : Bool :=
  c.lits.any (Lit.sat asn)

/-- `Clause.unsat` of src/yass.py: every literal evaluates negatively. -/
def Clause.unsat (asn : Assign) (c : Clause) : Bool :=
  c.lits.all (Lit.unsat asn)

/-- `Formula.sat` of src/yass.py: every clause is sat. -/
def Formula.sat (cs : List Clause) (asn : Assign) : Bool :=
  cs.all (Clause.sat asn)

/-- `Formula.unsat` of src/yass.py: some clause is unsat. -/
def Formula.unsat (cs : List Clause) (asn : Assign) : Bool :=
  cs.any (Clause.unsat asn)

/-- The index of the first unassigned variable, following `backtrack`'s scan
`for v in f.vars: if v.value == None`. -/
def firstNone : Assign → Option Nat
  | [] => none
  | none :: _ => some 0
  | some _ :: rest => (firstNone rest).map (fun n => n + 1)

/-- The number of unassigned variables (the measure `backtrack`'s recursion
decreases). -/
def countNone : Assign → Nat
  | [] => 0
  | none :: rest => countNone rest + 1
  | some _ :: rest => countNone rest

/-- One value trial of `backtrack`: after `v.value = value`, if the formula
has a falsified clause the branch is pruned (the value stays written, the
flag is failure), otherwise the recursive call `r = backtrack(f)` runs. -/
def btTry (next : Assign → Assign × Bool) (cs : List Clause) (a : Assign) :
    Assign × Bool :=
  if Formula.unsat cs a then (a, false) else next a

/-- The end of `backtrack`'s loop body: on failure of both trials the chosen
variable is reset (`v.value = None`) and failure is returned. -/
def btFinish (i : Nat) (r : Assign × Bool) : Assign × Bool :=
  if r.2 then r else (r.1.set i none, false)

/-- After the `True` trial: success propagates (`return r`), otherwise the
loop writes `False` over the chosen variable and tries again. -/
def btSecond (next : Assign → Assign × Bool) (cs : List Clause) (i : Nat)
    (r : Assign × Bool) : Assign × Bool :=
  if r.2 then r else btFinish i (btTry next cs (r.1.set i (some false)))

/-- The whole loop body of `backtrack` for the first unassigned variable i:
try `True` then `False`, restoring i on failure. -/
def btStep (next : Assign → Assign × Bool) (cs : List Clause) (i : Nat)
    (asn : Assign) : Assign × Bool :=
  btSecond next cs i (btTry next cs (asn.set i (some true)))

/-- `backtrack` of src/yass.py with an explicit recursion bound: find the
first unassigned variable and run the loop body on it; with every variable
assigned, test `f.sat()` and return the variable state on success. -/
def backtrackFuel : Nat → List Clause → Assign → Assign × Bool
  | 0, _, asn => (asn, false)
  | fuel + 1, cs, asn =>
    match firstNone asn with
    | none => (asn, Formula.sat cs asn)
    | some i => btStep (backtrackFuel fuel cs) cs i asn

/-- `backtrack` of src/yass.py: the bounded search at a bound that the
fuel-irrelevance theorem shows suffices (one more than the number of
unassigned variables). -/
def backtrack (cs : List Clause) (asn : Assign) : Assign × Bool :=
  backtrackFuel (countNone asn + 1) cs asn

/-- Python truthiness of a tri-state variable value: `None` and `False` are
falsy, only `True` is truthy (the `if curr_val and ...` test of `dpll`). -/
def pyTruthy : Option Bool → Bool
  | some true => true
  | _ => false

/-- The unit-propagation scan of `dpll` (src/yass.py lines 32-45): for each
clause of exactly one literal, fail if `curr_val and (curr_val != lit.sign)`,
else write the literal's sign over its variable and record the clause in
`unit_clauses`.  Returns the variable state at the end of the scan (or at the
early conflict return) and, when no conflict fired, the collected
`unit_clauses`. -/
def dpllScan : List Clause → Assign → Assign × Option (List Clause)
  | [], asn => (asn, some [])
  | c :: rest, asn =>
    match c.lits with
    | [l] =>
      if pyTruthy (getVar asn l.var) && !(getVar asn l.var == some l.sign) then
        (asn, none)
      else
        ((dpllScan rest (asn.set (l.var - 1) (some l.sign))).1,
         (dpllScan rest (asn.set (l.var - 1) (some l.sign))).2.map
           (fun us => c :: us))
    | _ => dpllScan rest asn

/-- `dpll` of src/yass.py: the unit scan, then removal of the collected unit
clauses from the clause list, then delegation to `backtrack`.  The result
holds the final variable state, the final clause list and the success
flag. -/
def dpll (cs : List Clause) (asn : Assign) : Assign × List Clause × Bool :=
  match dpllScan cs asn with
  | (a, none) => (a, cs, false)
  | (a, some us) =>
    ((backtrack (cs.filter (fun x => decide (x ∉ us))) a).1,
     cs.filter (fun x => decide (x ∉ us)),
     (backtrack (cs.filter (fun x => decide (x ∉ us))) a).2)

/-! ### List helpers -/

theorem getD_set_self : ∀ (l : Assign) (i : Nat) (a : Option Bool),
    i < l.length → (l.set i a).getD i none = a := by
  intro l
  induction l with
  | nil => intro i a h; exact absurd h (by simp)
  | cons x t ih =>
    intro i a h
    cases i with
    | zero => rfl
    | succ j => exact ih j a (by simpa using h)

theorem getD_set_ne : ∀ (l : Assign) (i j : Nat) (a : Option Bool),
    i ≠ j → (l.set i a).getD j none = l.getD j none := by
  intro l
  induction l with
  | nil => intro i j a _; simp
  | cons x t ih =>
    intro i j a h
    cases i with
    | zero =>
      cases j with
      | zero => exact absurd rfl h
      | succ j' => rfl
    | succ i' =>
      cases j with
      | zero => rfl
      | succ j' => exact ih i' j' a (fun he => h (by rw [he]))

theorem set_of_get? : ∀ (l : Assign) (i : Nat) (a : Option Bool),
    l.get? i = some a → l.set i a = l := by
  intro l
  induction l with
  | nil => intro i a h; cases i <;> simp at h
  | cons x t ih =>
    intro i a h
    cases i with
    | zero => simp at h; simp [h]
    | succ j => simpa using ih j a (by simpa using h)

/-! ### firstNone and countNone -/

theorem firstNone_get? : ∀ (l : Assign) (i : Nat),
    firstNone l = some i → l.get? i = some none := by
  intro l
  induction l with
  | nil => intro i h; simp [firstNone] at h
  | cons x t ih =>
    intro i h
    cases x with
    | none =>
      simp [firstNone] at h
      simp [← h]
    | some b =>
      simp only [firstNone, Option.map_eq_some'] at h
      obtain ⟨j, hj, rfl⟩ := h
      simpa using ih j hj

theorem firstNone_none : ∀ (l : Assign),
    firstNone l = none → ∀ x ∈ l, x ≠ none := by
  intro l
  induction l with
  | nil => intro _ x hx; simp at hx
  | cons y t ih =>
    intro h x hx
    cases y with
    | none => simp [firstNone] at h
    | some b =>
      simp only [firstNone, Option.map_eq_none'] at h
      rcases List.mem_cons.mp hx with rfl | hx'
      · simp
      · exact ih h x hx'

theorem countNone_zero_of_firstNone : ∀ (l : Assign),
    firstNone l = none → countNone l = 0 := by
  intro l
  induction l with
  | nil => intro _; rfl
  | cons y t ih =>
    intro h
    cases y with
    | none => simp [firstNone] at h
    | some b =>
      simp only [firstNone, Option.map_eq_none'] at h
      simpa [countNone] using ih h

theorem countNone_set_some : ∀ (l : Assign) (i : Nat) (b : Bool),
    l.get? i = some none → countNone (l.set i (some b)) + 1 = countNone l := by
  intro l
  induction l with
  | nil => intro i b h; cases i <;> simp at h
  | cons x t ih =>
    intro i b h
    cases i with
    | zero =>
      simp only [List.get?] at h
      injection h with h
      subst h
      simp [countNone]
    | succ j =>
      simp only [List.get?] at h
      cases x with
      | none => simpa [countNone] using ih j b h
      | some c => simpa [countNone] using ih j b h

theorem countNone_le_length : ∀ (l : Assign), countNone l ≤ l.length := by
  intro l
  induction l with
  | nil => exact Nat.le_refl 0
  | cons x t ih =>
    cases x with
    | none => simpa [countNone] using ih
    | some b => simp [countNone]; exact Nat.le_succ_of_le ih

theorem countNone_replicate : ∀ (n : Nat),
    countNone (List.replicate n none) = n := by
  intro n
  induction n with
  | zero => rfl
  | succ m ih => simpa [List.replicate, countNone] using ih

/-! ### Unfolding backtrackFuel -/

theorem backtrackFuel_succ (fuel : Nat) (cs : List Clause) (asn : Assign) :
    backtrackFuel (fuel + 1) cs asn =
      match firstNone asn with
      | none => (asn, Formula.sat cs asn)
      | some i => btStep (backtrackFuel fuel cs) cs i asn := rfl

theorem backtrackFuel_succ_none {asn : Assign} (fuel : Nat) (cs : List Clause)
    (h : firstNone asn = none) :
    backtrackFuel (fuel + 1) cs asn = (asn, Formula.sat cs asn) := by
  rw [backtrackFuel_succ, h]

theorem backtrackFuel_succ_some {asn : Assign} {i : Nat} (fuel : Nat)
    (cs : List Clause) (h : firstNone asn = some i) :
    backtrackFuel (fuel + 1) cs asn = btStep (backtrackFuel fuel cs) cs i asn := by
  rw [backtrackFuel_succ, h]

/-! ### Small-step unfolding of the loop-body helpers -/

theorem btTry_pos {next : Assign → Assign × Bool} {cs : List Clause}
    {a : Assign} (h : Formula.unsat cs a = true) :
    btTry next cs a = (a, false) := by
  unfold btTry
  rw [if_pos h]

theorem btTry_neg {next : Assign → Assign × Bool} {cs : List Clause}
    {a : Assign} (h : ¬Formula.unsat cs a = true) :
    btTry next cs a = next a := by
  unfold btTry
  rw [if_neg h]

theorem btSecond_true {next : Assign → Assign × Bool} {cs : List Clause}
    {i : Nat} {s1 : Assign} : btSecond next cs i (s1, true) = (s1, true) := rfl

theorem btSecond_false {next : Assign → Assign × Bool} {cs : List Clause}
    {i : Nat} {s1 : Assign} :
    btSecond next cs i (s1, false) =
      btFinish i (btTry next cs (s1.set i (some false))) := rfl

theorem btFinish_true {i : Nat} {s2 : Assign} :
    btFinish i (s2, true) = (s2, true) := rfl

theorem btFinish_false {i : Nat} {s2 : Assign} :
    btFinish i (s2, false) = (s2.set i none, false) := rfl

/-! ### The loop body under two bounds that agree on its recursive calls -/

theorem btStep_spec (f1 f2 : Assign → Assign × Bool) (cs : List Clause)
    (i : Nat) (asn : Assign)
    (hget : asn.get? i = some none)
    (h1 : ∀ b, f1 (asn.set i (some b)) = f2 (asn.set i (some b)))
    (hr : ∀ b s, f1 (asn.set i (some b)) = (s, false) → s = asn.set i (some b)) :
    btStep f1 cs i asn = btStep f2 cs i asn ∧
      ((btStep f1 cs i asn).2 = false → (btStep f1 cs i asn).1 = asn) := by
  have key : ∀ b : Bool,
      btTry f1 cs (asn.set i (some b)) = btTry f2 cs (asn.set i (some b)) ∧
      ∀ s, btTry f1 cs (asn.set i (some b)) = (s, false) →
        s = asn.set i (some b) := by
    intro b
    by_cases hu : Formula.unsat cs (asn.set i (some b)) = true
    · rw [btTry_pos hu, btTry_pos hu]
      exact ⟨rfl, fun s hs => (congrArg Prod.fst hs).symm⟩
    · rw [btTry_neg hu, btTry_neg hu]
      exact ⟨h1 b, fun s hs => hr b s hs⟩
  obtain ⟨k1eq, k1res⟩ := key true
  unfold btStep
  rcases hr1 : btTry f1 cs (asn.set i (some true)) with ⟨s1, b1⟩
  rw [hr1] at k1eq
  rw [← k1eq]
  cases b1 with
  | true =>
    rw [btSecond_true, btSecond_true]
    exact ⟨rfl, by simp⟩
  | false =>
    have hs1 : s1 = asn.set i (some true) := k1res s1 hr1
    rw [btSecond_false, btSecond_false]
    have hset2 : s1.set i (some false) = asn.set i (some false) := by
      rw [hs1, List.set_set]
    rw [hset2]
    obtain ⟨k2eq, k2res⟩ := key false
    rcases hr2 : btTry f1 cs (asn.set i (some false)) with ⟨s2, b2⟩
    rw [hr2] at k2eq
    rw [← k2eq]
    cases b2 with
    | true =>
      rw [btFinish_true]
      exact ⟨rfl, by simp⟩
    | false =>
      have hs2 : s2 = asn.set i (some false) := k2res s2 hr2
      rw [btFinish_false]
      refine ⟨rfl, fun _ => ?_⟩
      show s2.set i none = asn
      rw [hs2, List.set_set]
      exact set_of_get? asn i none hget

/-! ### Fuel irrelevance and restore-on-failure, simultaneously -/

theorem backtrackFuel_canon : ∀ (fuel : Nat) (cs : List Clause) (asn : Assign),
    countNone asn < fuel →
    backtrackFuel fuel cs asn = backtrackFuel (countNone asn + 1) cs asn ∧
      ((backtrackFuel fuel cs asn).2 = false →
        (backtrackFuel fuel cs asn).1 = asn) := by
  intro fuel
  induction fuel with
  | zero => intro cs asn h; exact absurd h (Nat.not_lt_zero _)
  | succ f ih =>
    intro cs asn h
    cases hF : firstNone asn with
    | none =>
      have hc : countNone asn = 0 := countNone_zero_of_firstNone asn hF
      rw [hc]
      rw [backtrackFuel_succ_none f cs hF, backtrackFuel_succ_none 0 cs hF]
      exact ⟨rfl, fun _ => rfl⟩
    | some i =>
      have hget : asn.get? i = some none := firstNone_get? asn i hF
      have hcnt : ∀ b : Bool, countNone (asn.set i (some b)) + 1 = countNone asn :=
        fun b => countNone_set_some asn i b hget
      have hlt : ∀ b : Bool, countNone (asn.set i (some b)) < f := by
        intro b
        have := hcnt b
        omega
      have h1 : ∀ b : Bool, backtrackFuel f cs (asn.set i (some b)) =
          backtrackFuel (countNone asn) cs (asn.set i (some b)) := by
        intro b
        have hh := (ih cs (asn.set i (some b)) (hlt b)).1
        rw [hh, hcnt b]
      have hr : ∀ (b : Bool) (s : Assign),
          backtrackFuel f cs (asn.set i (some b)) = (s, false) →
          s = asn.set i (some b) := by
        intro b s hs
        have hh := (ih cs (asn.set i (some b)) (hlt b)).2
        rw [hs] at hh
        exact hh rfl
      rw [backtrackFuel_succ_some f cs hF]
      have hcpos : 0 < countNone asn := by
        have := hcnt true
        omega
      obtain ⟨m, hm⟩ : ∃ m, countNone asn = m + 1 :=
        ⟨countNone asn - 1, by omega⟩
      rw [hm, backtrackFuel_succ_some (m + 1) cs hF]
      have := btStep_spec (backtrackFuel f cs) (backtrackFuel (m + 1) cs) cs i asn
        hget (by rw [← hm]; exact h1) (fun b s => hr b s)
      exact this

/-- `backtrack` on failure hands back exactly the variable state it was
given: the search undoes every assignment it made. -/
theorem backtrack_restore (cs : List Clause) (asn s : Assign)
    (h : backtrack cs asn = (s, false)) : s = asn := by
  have hh := (backtrackFuel_canon (countNone asn + 1) cs asn
    (Nat.lt_succ_self _)).2
  unfold backtrack at h
  rw [h] at hh
  exact hh rfl

/-- Any bound above the number of unassigned variables runs the search to
completion: the result no longer depends on the bound. -/
theorem backtrackFuel_eq_backtrack (fuel : Nat) (cs : List Clause)
    (asn : Assign) (h : countNone asn < fuel) :
    backtrackFuel fuel cs asn = backtrack cs asn :=
  (backtrackFuel_canon fuel cs asn h).1

/-! ### Success analysis -/

theorem btTry_success {next : Assign → Assign × Bool} {cs : List Clause}
    {a s : Assign} (h : btTry next cs a = (s, true)) : next a = (s, true) := by
  by_cases hu : Formula.unsat cs a = true
  · rw [btTry_pos hu] at h
    exact absurd (congrArg Prod.snd h) (by simp)
  · rw [btTry_neg hu] at h
    exact h

theorem btStep_success (next : Assign → Assign × Bool) (cs : List Clause)
    (i : Nat) (asn s : Assign) (h : btStep next cs i asn = (s, true)) :
    ∃ a, next a = (s, true) := by
  unfold btStep at h
  rcases hr1 : btTry next cs (asn.set i (some true)) with ⟨s1, b1⟩
  rw [hr1] at h
  cases b1 with
  | true =>
    rw [btSecond_true] at h
    simp only [Prod.mk.injEq, and_true] at h
    subst h
    exact ⟨asn.set i (some true), btTry_success hr1⟩
  | false =>
    rw [btSecond_false] at h
    rcases hr2 : btTry next cs (s1.set i (some false)) with ⟨s2, b2⟩
    rw [hr2] at h
    cases b2 with
    | true =>
      rw [btFinish_true] at h
      simp only [Prod.mk.injEq, and_true] at h
      subst h
      exact ⟨s1.set i (some false), btTry_success hr2⟩
    | false =>
      rw [btFinish_false] at h
      exact absurd (congrArg Prod.snd h) (by simp)

theorem backtrackFuel_success : ∀ (fuel : Nat) (cs : List Clause)
    (asn s : Assign), backtrackFuel fuel cs asn = (s, true) →
    firstNone s = none ∧ Formula.sat cs s = true := by
  intro fuel
  induction fuel with
  | zero =>
    intro cs asn s h
    exact absurd (congrArg Prod.snd h) (by simp [backtrackFuel])
  | succ f ih =>
    intro cs asn s h
    cases hF : firstNone asn with
    | none =>
      rw [backtrackFuel_succ_none f cs hF] at h
      have h1 : asn = s := congrArg Prod.fst h
      have h2 : Formula.sat cs asn = true := congrArg Prod.snd h
      subst h1
      exact ⟨hF, h2⟩
    | some i =>
      rw [backtrackFuel_succ_some f cs hF] at h
      obtain ⟨a, ha⟩ := btStep_success (backtrackFuel f cs) cs i asn s h
      exact ih cs a s ha

/-! ### Literal evaluation -/

theorem Lit.unsat_iff (asn : Assign) (l : Lit) :
    Lit.unsat asn l = true ↔
      getVar asn l.var ≠ none ∧ getVar asn l.var ≠ some l.sign := by
  unfold Lit.unsat Lit.sat
  rcases h : getVar asn l.var with _ | b
  · simp
  · by_cases hb : b = l.sign
    · subst hb
      simp
    · simp [hb]

/-! ### Formulas holding an empty clause -/

theorem empty_clause_unsat (asn : Assign) : Clause.unsat asn ⟨[]⟩ = true := rfl

theorem empty_clause_not_sat (asn : Assign) : Clause.sat asn ⟨[]⟩ = false := rfl

theorem formula_unsat_of_empty {cs : List Clause} (asn : Assign)
    (h : Clause.mk [] ∈ cs) : Formula.unsat cs asn = true := by
  unfold Formula.unsat
  exact List.any_eq_true.mpr ⟨Clause.mk [], h, empty_clause_unsat asn⟩

theorem formula_not_sat_of_empty {cs : List Clause} (asn : Assign)
    (h : Clause.mk [] ∈ cs) : Formula.sat cs asn = false := by
  unfold Formula.sat
  by_contra hb
  have hall : cs.all (Clause.sat asn) = true := by
    cases hcs : cs.all (Clause.sat asn)
    · exact absurd hcs hb
    · rfl
  have := List.all_eq_true.mp hall (Clause.mk []) h
  rw [empty_clause_not_sat asn] at this
  cases this

theorem backtrackFuel_empty_clause (fuel : Nat) (cs : List Clause)
    (asn : Assign) (h : Clause.mk [] ∈ cs) :
    (backtrackFuel fuel cs asn).2 = false := by
  cases fuel with
  | zero => rfl
  | succ f =>
    cases hF : firstNone asn with
    | none =>
      rw [backtrackFuel_succ_none f cs hF]
      exact formula_not_sat_of_empty asn h
    | some i =>
      rw [backtrackFuel_succ_some f cs hF]
      unfold btStep
      rw [btTry_pos (formula_unsat_of_empty _ h), btSecond_false,
        btTry_pos (formula_unsat_of_empty _ h), btFinish_false]

/-! ### The empty formula drives every variable to true -/

theorem firstNone_replicate_true : ∀ (k : Nat),
    firstNone (List.replicate k (some true)) = none := by
  intro k
  induction k with
  | zero => rfl
  | succ m ih => simpa [List.replicate, firstNone] using ih

theorem firstNone_replicate_append : ∀ (k m : Nat),
    firstNone (List.replicate k (some true) ++ none :: List.replicate m none) =
      some k := by
  intro k
  induction k with
  | zero => intro m; rfl
  | succ j ih =>
    intro m
    rw [List.replicate_succ, List.cons_append]
    show (firstNone (List.replicate j (some true) ++
        none :: List.replicate m none)).map (fun n => n + 1) = some (j + 1)
    rw [ih m]
    rfl

theorem set_replicate_append : ∀ (k m : Nat),
    (List.replicate k (some true) ++ none :: List.replicate m none).set k
        (some true) =
      List.replicate (k + 1) (some true) ++ List.replicate m none := by
  intro k
  induction k with
  | zero => intro m; rfl
  | succ j ih =>
    intro m
    rw [List.replicate_succ, List.cons_append, List.set_cons_succ, ih m]
    rw [List.replicate_succ (n := j + 1), List.cons_append]

theorem backtrack_empty_replicate : ∀ (m k fuel : Nat), m < fuel →
    backtrackFuel fuel []
        (List.replicate k (some true) ++ List.replicate m none) =
      (List.replicate (k + m) (some true), true) := by
  intro m
  induction m with
  | zero =>
    intro k fuel h
    obtain ⟨f, rfl⟩ : ∃ f, fuel = f + 1 := ⟨fuel - 1, by omega⟩
    have hF : firstNone (List.replicate k (some true) ++
        List.replicate 0 none) = none := by
      simpa using firstNone_replicate_true k
    rw [backtrackFuel_succ_none f [] hF]
    simp [Formula.sat]
  | succ n ih =>
    intro k fuel h
    obtain ⟨f, rfl⟩ : ∃ f, fuel = f + 1 := ⟨fuel - 1, by omega⟩
    have hF : firstNone (List.replicate k (some true) ++
        List.replicate (n + 1) none) = some k := by
      rw [List.replicate_succ]
      exact firstNone_replicate_append k n
    rw [backtrackFuel_succ_some f [] hF]
    unfold btStep
    have hset : (List.replicate k (some true) ++
        List.replicate (n + 1) none).set k (some true) =
        List.replicate (k + 1) (some true) ++ List.replicate n none := by
      rw [List.replicate_succ]
      exact set_replicate_append k n
    rw [hset, btTry_neg (by simp [Formula.unsat]), ih (k + 1) f (by omega),
      btSecond_true]
    rw [show k + 1 + n = k + (n + 1) by omega]

/-! ### The unit-propagation scan -/

theorem dpllScan_cons_nil {c : Clause} (rest : List Clause) (asn : Assign)
    (hc : c.lits = []) : dpllScan (c :: rest) asn = dpllScan rest asn := by
  obtain ⟨cl⟩ := c
  have hcl : cl = [] := hc
  subst hcl
  rfl

theorem dpllScan_cons_long {c : Clause} {l0 l1 : Lit} {t : List Lit}
    (rest : List Clause) (asn : Assign) (hc : c.lits = l0 :: l1 :: t) :
    dpllScan (c :: rest) asn = dpllScan rest asn := by
  obtain ⟨cl⟩ := c
  have hcl : cl = l0 :: l1 :: t := hc
  subst hcl
  rfl

theorem dpllScan_cons_unit {c : Clause} {l : Lit} (rest : List Clause)
    (asn : Assign) (hc : c.lits = [l]) :
    dpllScan (c :: rest) asn =
      if pyTruthy (getVar asn l.var) && !(getVar asn l.var == some l.sign) then
        (asn, none)
      else
        ((dpllScan rest (asn.set (l.var - 1) (some l.sign))).1,
         (dpllScan rest (asn.set (l.var - 1) (some l.sign))).2.map
           (fun us => c :: us)) := by
  obtain ⟨cl⟩ := c
  have hcl : cl = [l] := hc
  subst hcl
  rfl

/-- Statement helper for the pre-pass frame property: the unit literal a
clause contributes for variable v (its single literal, when the clause has
exactly one literal and it is over v). -/
def unitLitFor (v : Nat) (c : Clause) : Option Lit :=
  match c.lits with
  | [l] => if l.var = v then some l else none
  | _ => none

/-- Statement helper: the literal of the last length-1 clause over variable v
in the clause sequence, if any (scan order; the last write wins). -/
def lastUnitLit (cs : List Clause) (v : Nat) : Option Lit :=
  (cs.filterMap (unitLitFor v)).getLast?

theorem unitLitFor_nil {c : Clause} (v : Nat) (hc : c.lits = []) :
    unitLitFor v c = none := by
  unfold unitLitFor
  rw [hc]

theorem unitLitFor_long {c : Clause} {l0 l1 : Lit} {t : List Lit} (v : Nat)
    (hc : c.lits = l0 :: l1 :: t) : unitLitFor v c = none := by
  unfold unitLitFor
  rw [hc]

theorem unitLitFor_unit {c : Clause} {l : Lit} (v : Nat) (hc : c.lits = [l]) :
    unitLitFor v c = if l.var = v then some l else none := by
  unfold unitLitFor
  rw [hc]

theorem lastUnitLit_nil (v : Nat) : lastUnitLit [] v = none := rfl

theorem lastUnitLit_cons_none {c : Clause} {v : Nat} (rest : List Clause)
    (h : unitLitFor v c = none) :
    lastUnitLit (c :: rest) v = lastUnitLit rest v := by
  unfold lastUnitLit
  rw [List.filterMap_cons, h]

theorem getLast?_cons_ne_none (x : Lit) (xs : List Lit) :
    (x :: xs).getLast? ≠ none := by
  induction xs generalizing x with
  | nil => simp
  | cons y ys ih => rw [List.getLast?_cons_cons]; exact ih y

theorem lastUnitLit_cons_some_of_empty {c : Clause} {v : Nat} {l : Lit}
    (rest : List Clause) (h : unitLitFor v c = some l)
    (hrest : rest.filterMap (unitLitFor v) = []) :
    lastUnitLit (c :: rest) v = some l := by
  unfold lastUnitLit
  rw [List.filterMap_cons, h, hrest]
  rfl

theorem lastUnitLit_cons_some_of_nonempty {c : Clause} {v : Nat} {l : Lit}
    {x : Lit} {xs : List Lit} (rest : List Clause)
    (h : unitLitFor v c = some l)
    (hrest : rest.filterMap (unitLitFor v) = x :: xs) :
    lastUnitLit (c :: rest) v = lastUnitLit rest v := by
  unfold lastUnitLit
  rw [List.filterMap_cons, h, hrest, List.getLast?_cons_cons]

theorem dpllScan_units : ∀ (cs : List Clause) (asn a : Assign)
    (us : List Clause), dpllScan cs asn = (a, some us) →
    us = cs.filter (fun c => c.lits.length == 1) := by
  intro cs
  induction cs with
  | nil =>
    intro asn a us h
    have h2 : (some [] : Option (List Clause)) = some us := congrArg Prod.snd h
    injection h2 with h2
    rw [← h2]
    rfl
  | cons c rest ih =>
    intro asn a us h
    rcases hc : c.lits with _ | ⟨l0, _ | ⟨l1, t⟩⟩
    · rw [dpllScan_cons_nil rest asn hc] at h
      rw [List.filter_cons_of_neg (by simp [hc])]
      exact ih asn a us h
    · rw [dpllScan_cons_unit rest asn hc] at h
      by_cases hconf : (pyTruthy (getVar asn l0.var) &&
          !(getVar asn l0.var == some l0.sign)) = true
      · rw [if_pos hconf] at h
        have h2 : (none : Option (List Clause)) = some us := congrArg Prod.snd h
        cases h2
      · rw [if_neg hconf] at h
        rcases hrest : dpllScan rest (asn.set (l0.var - 1) (some l0.sign))
          with ⟨a2, o2⟩
        rw [hrest] at h
        have h2 : o2.map (fun us => c :: us) = some us := congrArg Prod.snd h
        obtain ⟨us2, ho2, hcons⟩ := Option.map_eq_some'.mp h2
        rw [ho2] at hrest
        rw [List.filter_cons_of_pos (by simp [hc]), ← hcons,
          ← ih (asn.set (l0.var - 1) (some l0.sign)) a2 us2 hrest]
    · rw [dpllScan_cons_long rest asn hc] at h
      rw [List.filter_cons_of_neg (by simp [hc])]
      exact ih asn a us h

theorem dpllScan_vars : ∀ (cs : List Clause) (asn a : Assign)
    (us : List Clause), dpllScan cs asn = (a, some us) →
    (∀ c ∈ cs, ∀ l ∈ c.lits, 1 ≤ l.var ∧ l.var ≤ asn.length) →
    ∀ v, 1 ≤ v →
      (lastUnitLit cs v = none → getVar a v = getVar asn v) ∧
      (∀ l, lastUnitLit cs v = some l → getVar a v = some l.sign) := by
  intro cs
  induction cs with
  | nil =>
    intro asn a us h _ v _
    have h1 : asn = a := congrArg Prod.fst h
    subst h1
    constructor
    · intro _; rfl
    · intro l hl
      rw [lastUnitLit_nil] at hl
      cases hl
  | cons c rest ih =>
    intro asn a us h hwf v hv
    rcases hc : c.lits with _ | ⟨l0, _ | ⟨l1, t⟩⟩
    · rw [dpllScan_cons_nil rest asn hc] at h
      have hwf' : ∀ c' ∈ rest, ∀ l ∈ c'.lits, 1 ≤ l.var ∧ l.var ≤ asn.length :=
        fun c' hc' => hwf c' (List.mem_cons_of_mem c hc')
      rw [lastUnitLit_cons_none rest (unitLitFor_nil v hc)]
      exact ih asn a us h hwf' v hv
    · rw [dpllScan_cons_unit rest asn hc] at h
      by_cases hconf : (pyTruthy (getVar asn l0.var) &&
          !(getVar asn l0.var == some l0.sign)) = true
      · rw [if_pos hconf] at h
        have h2 : (none : Option (List Clause)) = some us := congrArg Prod.snd h
        cases h2
      · rw [if_neg hconf] at h
        rcases hrest : dpllScan rest (asn.set (l0.var - 1) (some l0.sign))
          with ⟨a2, o2⟩
        rw [hrest] at h
        have hfst : a2 = a := congrArg Prod.fst h
        subst hfst
        have h2 : o2.map (fun us => c :: us) = some us := congrArg Prod.snd h
        obtain ⟨us2, ho2, hcons⟩ := Option.map_eq_some'.mp h2
        rw [ho2] at hrest
        have hl0wf : 1 ≤ l0.var ∧ l0.var ≤ asn.length := by
          refine hwf c (List.mem_cons_self c rest) l0 ?_
          rw [hc]
          exact List.mem_cons_self l0 []
        have hwf' : ∀ c' ∈ rest, ∀ l ∈ c'.lits,
            1 ≤ l.var ∧ l.var ≤ (asn.set (l0.var - 1) (some l0.sign)).length := by
          intro c' hc' l hl
          rw [List.length_set]
          exact hwf c' (List.mem_cons_of_mem c hc') l hl
        have ihv := ih (asn.set (l0.var - 1) (some l0.sign)) a2 us2 hrest hwf' v hv
        by_cases hvv : l0.var = v
        · have hu : unitLitFor v c = some l0 := by
            rw [unitLitFor_unit v hc, if_pos hvv]
          rw [hvv] at hl0wf
          cases hrest2 : rest.filterMap (unitLitFor v) with
          | nil =>
            have hlast := lastUnitLit_cons_some_of_empty rest hu hrest2
            have hrnone : lastUnitLit rest v = none := by
              unfold lastUnitLit
              rw [hrest2]
              rfl
            constructor
            · intro hcontra
              rw [hlast] at hcontra
              cases hcontra
            · intro l hl
              rw [hlast] at hl
              injection hl with hl
              subst hl
              rw [ihv.1 hrnone]
              unfold getVar
              rw [hvv]
              exact getD_set_self asn (v - 1) (some l0.sign) (by omega)
          | cons x xs =>
            have hlast := lastUnitLit_cons_some_of_nonempty rest hu hrest2
            constructor
            · intro hcontra
              rw [hlast] at hcontra
              unfold lastUnitLit at hcontra
              rw [hrest2] at hcontra
              exact absurd hcontra (getLast?_cons_ne_none x xs)
            · intro l hl
              rw [hlast] at hl
              exact ihv.2 l hl
        · have hu : unitLitFor v c = none := by
            rw [unitLitFor_unit v hc, if_neg hvv]
          rw [lastUnitLit_cons_none rest hu]
          have hpreserve : getVar (asn.set (l0.var - 1) (some l0.sign)) v =
              getVar asn v := by
            unfold getVar
            exact getD_set_ne asn (l0.var - 1) (v - 1) (some l0.sign) (by omega)
          constructor
          · intro hnone
            rw [ihv.1 hnone, hpreserve]
          · exact fun l hl => ihv.2 l hl
    · rw [dpllScan_cons_long rest asn hc] at h
      have hwf' : ∀ c' ∈ rest, ∀ l ∈ c'.lits, 1 ≤ l.var ∧ l.var ≤ asn.length :=
        fun c' hc' => hwf c' (List.mem_cons_of_mem c hc')
      rw [lastUnitLit_cons_none rest (unitLitFor_long v hc)]
      exact ih asn a us h hwf' v hv

theorem dpll_filter_eq (cs us : List Clause)
    (h : us = cs.filter (fun c => c.lits.length == 1)) :
    cs.filter (fun x => decide (x ∉ us)) =
      cs.filter (fun c => decide (c.lits.length ≠ 1)) := by
  apply List.filter_congr
  intro x hx
  subst h
  simp [decide_eq_decide, List.mem_filter, hx]

theorem unitLitFor_some {v : Nat} {c : Clause} {l : Lit}
    (h : unitLitFor v c = some l) : c.lits = [l] ∧ l.var = v := by
  unfold unitLitFor at h
  rcases hc : c.lits with _ | ⟨l0, _ | ⟨l1, t⟩⟩ <;> rw [hc] at h
  · exact Option.noConfusion h
  · have h2 : (if l0.var = v then some l0 else none) = some l := h
    by_cases hv : l0.var = v
    · rw [if_pos hv] at h2
      injection h2 with h2
      subst h2
      exact ⟨rfl, hv⟩
    · rw [if_neg hv] at h2
      exact Option.noConfusion h2
  · exact Option.noConfusion h

/-! ## The claims -/

/-- C1: the spec asks that `backtrack(F)` and `dpll(F)` agree on
satisfiability for every formula F.  The code does not: on the formula
with one variable and the unit clauses `-1` then `1` (DIMACS `p cnf 1 2`,
`-1 0`, `1 0`), `backtrack` correctly reports unsatisfiable, while `dpll`'s
conflict check `if curr_val and (curr_val != lit.sign)` treats the
assigned value `False` as "no assignment" (Python truthiness), overwrites
it with `True`, removes both unit clauses and reports satisfiable. -/
theorem backtrack_dpll_disagree_on_reversed_units :
    backtrack [Clause.mk [Lit.mk 1 false], Clause.mk [Lit.mk 1 true]] [none] =
        ([none], false) ∧
      (dpll [Clause.mk [Lit.mk 1 false], Clause.mk [Lit.mk 1 true]]
          [none]).2.2 = true := by
  decide

/-- C2: the spec asks that a formula holding both unit clauses `{x}` and
`{-x}` be decided unsatisfiable by `dpll` in either order.  With `{x}`
first the conflict fires, but with `{-x}` first the scan assigns `False`,
and the truthiness test `if curr_val and ...` then skips the conflict
check for the second clause, so `dpll` answers satisfiable. -/
theorem dpll_misses_conflict_false_then_true :
    (dpll [Clause.mk [Lit.mk 1 false], Clause.mk [Lit.mk 1 true]]
        [none]).2.2 = true ∧
      (dpll [Clause.mk [Lit.mk 1 true], Clause.mk [Lit.mk 1 false]]
          [none]).2.2 = false := by
  decide

/-- C3: when `backtrack` succeeds, the returned variable state satisfies
every clause of the formula (each clause has a literal whose variable's
value equals its polarity) and assigns every variable. -/
theorem backtrack_success_sound (cs : List Clause) (asn s : Assign)
    (h : backtrack cs asn = (s, true)) :
    Formula.sat cs s = true ∧
      (∀ c ∈ cs, ∃ l ∈ c.lits, getVar s l.var = some l.sign) ∧
      ∀ x ∈ s, x ≠ none := by
  obtain ⟨hfn, hsat⟩ := backtrackFuel_success (countNone asn + 1) cs asn s h
  refine ⟨hsat, ?_, firstNone_none s hfn⟩
  intro c hc
  have hcs : Clause.sat s c = true := List.all_eq_true.mp hsat c hc
  obtain ⟨l, hl, hsl⟩ := List.any_eq_true.mp hcs
  exact ⟨l, hl, beq_iff_eq.mp hsl⟩

/-- C3 witness: the success-soundness theorem applied at the one-clause
formula `1 0` started fully unassigned, whose search returns `[true]`. -/
theorem backtrack_success_sound_checked :
    Formula.sat [Clause.mk [Lit.mk 1 true]] [some true] = true :=
  (backtrack_success_sound [Clause.mk [Lit.mk 1 true]] [none] [some true]
    (by decide)).1

/-- C4 counterexample: `dpll` on the formula `1 0`, `-1 0` (all variables
unassigned) reports unsatisfiable yet leaves variable 1 assigned `True`:
the conflict return of the scan does not undo the forced assignments, so
the claim fails for the `dpll` entry point. -/
theorem dpll_failure_leaks_assignment :
    (dpll [Clause.mk [Lit.mk 1 true], Clause.mk [Lit.mk 1 false]]
        [none]).2.2 = false ∧
      (dpll [Clause.mk [Lit.mk 1 true], Clause.mk [Lit.mk 1 false]]
          [none]).1 = [some true] := by
  decide

/-- C4 (amended): for the `backtrack` entry point the claim holds — a
failed search returns with every variable unassigned whenever every
variable started unassigned (the search restores its trial assignments). -/
theorem backtrack_failure_leaves_all_unassigned (cs : List Clause)
    (asn s : Assign) (h : backtrack cs asn = (s, false))
    (hstart : asn.all (fun x => x == none) = true) :
    s.all (fun x => x == none) = true := by
  rw [backtrack_restore cs asn s h]
  exact hstart

/-- C4 witness: the amended theorem applied at the unsatisfiable formula
`1 0`, `-1 0`, started fully unassigned. -/
theorem backtrack_failure_leaves_all_unassigned_checked :
    (([none] : Assign).all (fun x => x == none)) = true :=
  backtrack_failure_leaves_all_unassigned
    [Clause.mk [Lit.mk 1 true], Clause.mk [Lit.mk 1 false]] [none] [none]
    (by decide) (by decide)

/-- C5: `Clause.unsat` is true exactly when every literal of the clause is
falsified (variable assigned, and assigned against the literal's
polarity); a clause with an unassigned literal is never flagged unsat. -/
theorem clause_unsat_iff_every_literal_falsified (asn : Assign) (c : Clause) :
    (Clause.unsat asn c = true ↔
      ∀ l ∈ c.lits, getVar asn l.var ≠ none ∧
        getVar asn l.var ≠ some l.sign) ∧
    ((∃ l ∈ c.lits, getVar asn l.var = none) → Clause.unsat asn c = false) := by
  have hiff : Clause.unsat asn c = true ↔
      ∀ l ∈ c.lits, getVar asn l.var ≠ none ∧
        getVar asn l.var ≠ some l.sign := by
    unfold Clause.unsat
    rw [List.all_eq_true]
    constructor
    · intro hall l hl
      exact (Lit.unsat_iff asn l).mp (hall l hl)
    · intro hall l hl
      exact (Lit.unsat_iff asn l).mpr (hall l hl)
  refine ⟨hiff, ?_⟩
  rintro ⟨l, hl, hnone⟩
  cases hcu : Clause.unsat asn c with
  | false => rfl
  | true => exact absurd hnone (hiff.mp hcu l hl).1

/-- C6: on the formula `1 2 0`, `-1 -2 0` with both variables unassigned,
`backtrack` finds the first solution of the fixed ordering (first
unassigned variable, `True` before `False`): variable 1 true and
variable 2 false. -/
theorem backtrack_first_solution_scenario4 :
    backtrack [Clause.mk [Lit.mk 1 true, Lit.mk 2 true],
        Clause.mk [Lit.mk 1 false, Lit.mk 2 false]] [none, none] =
      ([some true, some false], true) := by
  decide

/-- C7: the empty clause is falsified under every assignment (`unsat` true,
`sat` false), and `backtrack` fails on any formula containing it. -/
theorem empty_clause_always_falsified (cs : List Clause) (asn : Assign)
    (h : Clause.mk [] ∈ cs) :
    Clause.unsat asn ⟨[]⟩ = true ∧ Clause.sat asn ⟨[]⟩ = false ∧
      (backtrack cs asn).2 = false :=
  ⟨empty_clause_unsat asn, empty_clause_not_sat asn,
    backtrackFuel_empty_clause (countNone asn + 1) cs asn h⟩

/-- C7 witness: the theorem applied at the formula whose only clause is
empty, with one unassigned variable. -/
theorem empty_clause_always_falsified_checked :
    Clause.unsat [none] ⟨[]⟩ = true ∧ Clause.sat [none] ⟨[]⟩ = false ∧
      (backtrack [Clause.mk []] [none]).2 = false :=
  empty_clause_always_falsified [Clause.mk []] [none] (by decide)

/-- C8 counterexample: on the clauses `-1 0`, `1 0` (one unassigned
variable) the pre-pass completes without reporting a conflict, removes
both unit clauses, but variable 1 ends assigned `True`, not the polarity
of the removed unit clause `-1 0` — the last scanned unit clause wins, so
"each variable is assigned that literal's polarity" fails as stated. -/
theorem dpll_prepass_not_first_unit_polarity :
    dpllScan [Clause.mk [Lit.mk 1 false], Clause.mk [Lit.mk 1 true]] [none] =
        ([some true],
          some [Clause.mk [Lit.mk 1 false], Clause.mk [Lit.mk 1 true]]) ∧
      getVar [some true] 1 ≠ some false := by
  decide

/-- C8 (amended): when the pre-pass completes without reporting a conflict
on a well-formed formula, the clause list handed to `backtrack` is the
original with exactly the length-1 clauses removed (order preserved),
every variable not occurring in a length-1 clause keeps its value, and
every variable occurring in one holds the polarity of the *last* length-1
clause over it in scan order. -/
theorem dpll_prepass_frame (cs : List Clause) (asn a : Assign)
    (us : List Clause) (hscan : dpllScan cs asn = (a, some us))
    (hwf : ∀ c ∈ cs, ∀ l ∈ c.lits, 1 ≤ l.var ∧ l.var ≤ asn.length) :
    cs.filter (fun x => decide (x ∉ us)) =
        cs.filter (fun c => decide (c.lits.length ≠ 1)) ∧
      (∀ v, 1 ≤ v → lastUnitLit cs v = none → getVar a v = getVar asn v) ∧
      (∀ v l, lastUnitLit cs v = some l → getVar a v = some l.sign) := by
  have hus := dpllScan_units cs asn a us hscan
  refine ⟨dpll_filter_eq cs us hus, ?_, ?_⟩
  · intro v hv
    exact (dpllScan_vars cs asn a us hscan hwf v hv).1
  · intro v l hl
    have hm : l ∈ cs.filterMap (unitLitFor v) := List.mem_of_mem_getLast? hl
    obtain ⟨c, hcm, hfc⟩ := List.mem_filterMap.mp hm
    obtain ⟨hcl, hlv⟩ := unitLitFor_some hfc
    have hwl := hwf c hcm l (by rw [hcl]; exact List.mem_cons_self l [])
    have hv : 1 ≤ v := by
      rw [← hlv]
      exact hwl.1
    exact (dpllScan_vars cs asn a us hscan hwf v hv).2 l hl

/-- C8 witness: the frame theorem applied at the clauses `1 0` and
`1 2 0` over two unassigned variables: the unit clause is removed, the
longer clause kept, variable 1 forced true, variable 2 untouched. -/
theorem dpll_prepass_frame_checked :
    ([Clause.mk [Lit.mk 1 true], Clause.mk [Lit.mk 1 true, Lit.mk 2 true]].filter
        (fun x => decide (x ∉ [Clause.mk [Lit.mk 1 true]])) =
      [Clause.mk [Lit.mk 1 true], Clause.mk [Lit.mk 1 true, Lit.mk 2 true]].filter
        (fun c => decide (c.lits.length ≠ 1))) ∧
      getVar [some true, none] 2 = getVar [none, none] 2 ∧
      getVar [some true, none] 1 = some true := by
  refine ⟨?_, ?_, ?_⟩
  · exact (dpll_prepass_frame
      [Clause.mk [Lit.mk 1 true], Clause.mk [Lit.mk 1 true, Lit.mk 2 true]]
      [none, none] [some true, none] [Clause.mk [Lit.mk 1 true]]
      (by decide) (by decide)).1
  · exact (dpll_prepass_frame
      [Clause.mk [Lit.mk 1 true], Clause.mk [Lit.mk 1 true, Lit.mk 2 true]]
      [none, none] [some true, none] [Clause.mk [Lit.mk 1 true]]
      (by decide) (by decide)).2.1 2 (by decide) (by decide)
  · exact (dpll_prepass_frame
      [Clause.mk [Lit.mk 1 true], Clause.mk [Lit.mk 1 true, Lit.mk 2 true]]
      [none, none] [some true, none] [Clause.mk [Lit.mk 1 true]]
      (by decide) (by decide)).2.2 1 (Lit.mk 1 true) (by decide)

/-- C9: `backtrack` terminates — each recursive call strictly decreases
the number of unassigned variables, so any recursion bound above that
number (in particular, the variable count plus one) runs the search to
completion and the result no longer depends on the bound. -/
theorem backtrack_fuel_bound (cs : List Clause) (asn : Assign) (fuel : Nat)
    (h : countNone asn < fuel) :
    backtrackFuel fuel cs asn = backtrack cs asn ∧
      backtrackFuel (asn.length + 1) cs asn = backtrack cs asn ∧
      ∀ i b, firstNone asn = some i →
        countNone (asn.set i (some b)) + 1 = countNone asn := by
  refine ⟨backtrackFuel_eq_backtrack fuel cs asn h, ?_, ?_⟩
  · exact backtrackFuel_eq_backtrack (asn.length + 1) cs asn
      (Nat.lt_succ_of_le (countNone_le_length asn))
  · intro i b hF
    exact countNone_set_some asn i b (firstNone_get? asn i hF)

/-- C9 witness: the bound theorem applied at the empty formula over one
unassigned variable with bound 5. -/
theorem backtrack_fuel_bound_checked :
    backtrackFuel 5 [] [none] = backtrack [] [none] :=
  (backtrack_fuel_bound [] [none] 5 (by decide)).1

/-- C10: on a formula with no clauses and all n variables unassigned, the
search never prunes and the true-before-false order drives every variable
to true. -/
theorem backtrack_empty_formula_all_true (n : Nat) :
    backtrack [] (List.replicate n none) =
      (List.replicate n (some true), true) := by
  unfold backtrack
  rw [countNone_replicate n]
  have h := backtrack_empty_replicate n 0 (n + 1) (Nat.lt_succ_self n)
  simpa using h

end Yass
